import Mathlib

/-!
# The DHCP server of `final_dhcp_server.c`

A shallow embedding of the address allocator (`get_ip_for_mac`) and of one
iteration of the request loop of `main`, followed by the properties of the
specification that were checked against it.

Conventions of the embedding.

* A byte is a `Nat` below 256; a C string is the list of the bytes before its
  terminating NUL, so it holds no zero byte (`NoNul`).
* A 16- or 32-bit field of `struct dhcp_packet` is represented by the number
  its bytes spell when read in memory (wire) order, most significant byte
  first.  Under this representation `htonl` and `ntohl` are the identity,
  `inet_addr "a.b.c.d"` is `a * 2^24 + b * 2^16 + c * 2^8 + d`, and storing a
  32-bit value with `*(uint32_t*)&options[pos] = v` writes the four bytes of
  `be32 v`.  Nothing depends on the byte order of the host.
* The two `static` variables of `get_ip_for_mac` and the global device table
  are passed explicitly; the function returns the string it points to together
  with the new value of `counter`.
-/

set_option maxRecDepth 100000

namespace DhcpServer

/-! ## C library functions used by the program -/

/-- The bytes of a string constant. -/
def cstr (s : String) : List Nat := s.toList.map Char.toNat

/-- A C string holds no NUL byte. -/
def NoNul (s : List Nat) : Prop := ∀ c ∈ s, c ≠ 0

instance (s : List Nat) : Decidable (NoNul s) := by
  unfold NoNul; infer_instance

/-- `tolower` in the C locale. -/
def tolower (c : Nat) : Nat := if 65 ≤ c ∧ c ≤ 90 then c + 32 else c

/-- `toupper` in the C locale. -/
def toupper (c : Nat) : Nat := if 97 ≤ c ∧ c ≤ 122 then c - 32 else c

/-- `strcasecmp`: the difference of the first pair of bytes that differ after
`tolower`, the end of a string counting as the byte 0. -/
def strcasecmp : List Nat → List Nat → Int
  | [], [] => 0
  | [], b :: _ => 0 - (tolower b : Int)
  | a :: _, [] => (tolower a : Int) - 0
  | a :: as, b :: bs =>
    if tolower a = tolower b then strcasecmp as bs
    else (tolower a : Int) - (tolower b : Int)

/-- The conversion `%d` of a non-negative `int`. -/
def fmt_d (n : Nat) : List Nat := (Nat.toDigits 10 n).map Char.toNat

/-- One lower-case hexadecimal digit. -/
def hexDigit (d : Nat) : Nat := if d < 10 then 48 + d else 87 + d

/-- The conversion `%02x` of a `uint8_t` argument: exactly two digits. -/
def fmt_02x (b : Nat) : List Nat := [hexDigit (b / 16 % 16), hexDigit (b % 16)]

/-- What `snprintf (buf, size, ...)` leaves in `buf` when the formatted text is
`text`: at most `size - 1` bytes of it. -/
def snprintf (size : Nat) (text : List Nat) : List Nat := text.take (size - 1)

/-- The value of a digit character in the given base. -/
def digitVal (base c : Nat) : Option Nat :=
  let v :=
    if 48 ≤ c ∧ c ≤ 57 then c - 48
    else if 97 ≤ c ∧ c ≤ 102 then c - 87
    else if 65 ≤ c ∧ c ≤ 70 then c - 55
    else base
  if v < base then some v else none

/-- The number spelled by a list of digits, none if one is not a digit. -/
def parseNum (base : Nat) : List Nat → Nat → Option Nat
  | [], acc => some acc
  | c :: cs, acc =>
    match digitVal base c with
    | some v => parseNum base cs (acc * base + v)
    | none => none

/-- One part of an address in numbers-and-dots notation, read as C reads an
integer constant: `0x` hexadecimal, leading `0` octal, decimal otherwise. -/
def parsePart : List Nat → Option Nat
  | [] => none
  | 48 :: 120 :: d :: ds => parseNum 16 (d :: ds) 0
  | 48 :: 88 :: d :: ds => parseNum 16 (d :: ds) 0
  | 48 :: ds => parseNum 8 ds 0
  | c :: cs => parseNum 10 (c :: cs) 0

/-- The parts between the dots (byte 46). -/
def splitDots : List Nat → List (List Nat)
  | [] => [[]]
  | c :: cs =>
    if c = 46 then [] :: splitDots cs
    else
      match splitDots cs with
      | [] => [[c]]
      | p :: ps => (c :: p) :: ps

/-- All parts, none if one is malformed. -/
def parseParts : List (List Nat) → Option (List Nat)
  | [] => some []
  | p :: ps =>
    match parsePart p, parseParts ps with
    | some v, some vs => some (v :: vs)
    | _, _ => none

/-- The result of `inet_addr` on failure. -/
def INADDR_NONE : Nat := 0xffffffff

/-- `inet_addr`: the forms `a.b.c.d`, `a.b.c`, `a.b` and `a` of the
numbers-and-dots notation; the result is in network byte order.  (White space
does not occur in the strings this program passes: they are constants, the
output of `snprintf`, or table entries read with `%15s`.) -/
def inet_addr (s : List Nat) : Nat :=
  match parseParts (splitDots s) with
  | some [a] => if a ≤ 0xffffffff then a else INADDR_NONE
  | some [a, b] =>
    if a ≤ 0xff ∧ b ≤ 0xffffff then a * 2 ^ 24 + b else INADDR_NONE
  | some [a, b, c] =>
    if a ≤ 0xff ∧ b ≤ 0xff ∧ c ≤ 0xffff then a * 2 ^ 24 + b * 2 ^ 16 + c
    else INADDR_NONE
  | some [a, b, c, d] =>
    if a ≤ 0xff ∧ b ≤ 0xff ∧ c ≤ 0xff ∧ d ≤ 0xff then
      a * 2 ^ 24 + b * 2 ^ 16 + c * 2 ^ 8 + d
    else INADDR_NONE
  | _ => INADDR_NONE

/-- `htonl` on the wire representation of a 32-bit value: the identity. -/
def htonl (v : Nat) : Nat := v

/-- `ntohl` on the wire representation of a 32-bit value: the identity. -/
def ntohl (v : Nat) : Nat := v

/-- The four bytes of a 32-bit value in memory order. -/
def be32 (v : Nat) : List Nat :=
  [v / 2 ^ 24 % 256, v / 2 ^ 16 % 256, v / 2 ^ 8 % 256, v % 256]

/-! ## The device table and the allocator -/

/-- One record of the table `devices` (`struct auth_device`). -/
structure auth_device where
  mac : List Nat
  ip : List Nat
  name : List Nat
  deriving DecidableEq, Repr

/-- The loop of `get_ip_for_mac` over the table: the `ip` of the first record
whose `mac` compares equal to the argument. -/
def lookup_device : List auth_device → List Nat → Option (List Nat)
  | [], _ => none
  | d :: ds, mac =>
    if strcasecmp mac d.mac = 0 then some d.ip else lookup_device ds mac

/-- `get_ip_for_mac`: the string returned and the new value of the static
`counter`, which starts at 100. -/
def get_ip_for_mac (devices : List auth_device) (counter : Nat)
    (mac : List Nat) : List Nat × Nat :=
  match lookup_device devices mac with
  | some ip => (ip, counter)
  | none =>
    (snprintf 16 (cstr "192.168.4." ++ fmt_d counter),
      if counter + 1 > 200 then 100 else counter + 1)

/-! ## Packets -/

/-- The packed `struct dhcp_packet`, 552 bytes. -/
structure dhcp_packet where
  op : Nat
  htype : Nat
  hlen : Nat
  hops : Nat
  xid : Nat
  secs : Nat
  flags : Nat
  ciaddr : Nat
  yiaddr : Nat
  siaddr : Nat
  giaddr : Nat
  chaddr : List Nat
  sname : List Nat
  file : List Nat
  magic : Nat
  options : List Nat
  deriving DecidableEq, Repr

/-- The initialiser `= {0}`. -/
def zero_packet : dhcp_packet where
  op := 0
  htype := 0
  hlen := 0
  hops := 0
  xid := 0
  secs := 0
  flags := 0
  ciaddr := 0
  yiaddr := 0
  siaddr := 0
  giaddr := 0
  chaddr := List.replicate 16 0
  sname := List.replicate 64 0
  file := List.replicate 128 0
  magic := 0
  options := List.replicate 312 0

/-- The number spelled by bytes in memory order. -/
def be (bs : List Nat) : Nat := bs.foldl (fun a b => a * 256 + b) 0

/-- The bytes `off .. off + len - 1` of a buffer. -/
def field (b : List Nat) (off len : Nat) : List Nat := (b.drop off).take len

/-- The fields of the packed struct that lies in a 552-byte buffer. -/
def decode (b : List Nat) : dhcp_packet where
  op := b.getD 0 0
  htype := b.getD 1 0
  hlen := b.getD 2 0
  hops := b.getD 3 0
  xid := be (field b 4 4)
  secs := be (field b 8 2)
  flags := be (field b 10 2)
  ciaddr := be (field b 12 4)
  yiaddr := be (field b 16 4)
  siaddr := be (field b 20 4)
  giaddr := be (field b 24 4)
  chaddr := field b 28 16
  sname := field b 44 64
  file := field b 108 128
  magic := be (field b 236 4)
  options := field b 240 312

/-- The buffer `request` after `recvfrom (sock, &request, sizeof (request), ...)`
received the datagram `dgram`: the datagram, cut at 552 bytes, over what the
buffer held before. -/
def recvfrom (buf dgram : List Nat) : List Nat :=
  (List.range 552).map fun i =>
    if i < dgram.length then dgram.getD i 0 else buf.getD i 0

/-! ## One iteration of the request loop -/

/-- The loop that parses the message type, started at index `i`, with the
number of iterations bounded by the first argument: the value left in
`msg_type` and the indices of `request.options` read, in order. -/
def scanLoop (options : List Nat) : Nat → Nat → Nat × List Nat
  | 0, _ => (0, [])
  | fuel + 1, i =>
    if i < 308 then
      if options.getD i 0 ≠ 255 then
        if options.getD i 0 = 53 then (options.getD (i + 2) 0, [i, i, i + 2])
        else if options.getD i 0 = 0 then
          let r := scanLoop options fuel (i + 1)
          (r.1, i :: i :: i :: r.2)
        else
          let r := scanLoop options fuel (i + 2 + options.getD (i + 1) 0)
          (r.1, i :: i :: i :: (i + 1) :: r.2)
      else (0, [i])
    else (0, [])

/-- The message type found by the loop: `i` grows in every iteration, so 308
iterations are enough (`scanLoop_fuel`). -/
def scan (options : List Nat) : Nat := (scanLoop options 308 0).1

/-- The indices of `request.options` the loop reads. -/
def scanReads (options : List Nat) : List Nat := (scanLoop options 308 0).2

/-- The statement `response.options[pos++] = b`. -/
def put8 (s : List Nat × Nat) (b : Nat) : List Nat × Nat :=
  (s.1.set s.2 (b % 256), s.2 + 1)

/-- The statements `*(uint32_t*)&response.options[pos] = v; pos += 4`. -/
def put32 (s : List Nat × Nat) (v : Nat) : List Nat × Nat :=
  ((((s.1.set s.2 (v / 2 ^ 24 % 256)).set (s.2 + 1) (v / 2 ^ 16 % 256)).set
    (s.2 + 2) (v / 2 ^ 8 % 256)).set (s.2 + 3) (v % 256), s.2 + 4)

/-- The options the server writes into a zeroed `response.options`. -/
def build_options (msg_type : Nat) : List Nat :=
  let s := (List.replicate 312 0, 0)
  let s := put8 (put8 (put8 s 53) 1) (if msg_type = 1 then 2 else 5)
  let s := put32 (put8 (put8 s 54) 4) (inet_addr (cstr "192.168.4.1"))
  let s := put32 (put8 (put8 s 51) 4) (htonl 86400)
  let s := put32 (put8 (put8 s 58) 4) (htonl 43200)
  let s := put32 (put8 (put8 s 59) 4) (htonl 75600)
  let s := put32 (put8 (put8 s 1) 4) (inet_addr (cstr "255.255.255.0"))
  let s := put32 (put8 (put8 s 28) 4) (inet_addr (cstr "192.168.4.255"))
  let s := put32 (put32 (put8 (put8 s 6) 8) (inet_addr (cstr "8.8.8.8")))
    (inet_addr (cstr "8.8.4.4"))
  let s := put32 (put8 (put8 s 3) 4) (inet_addr (cstr "192.168.4.1"))
  let s := put8 s 255
  s.1

/-- The text `snprintf` writes into `mac` from `request.chaddr`. -/
def format_mac (chaddr : List Nat) : List Nat :=
  snprintf 18
    (fmt_02x (chaddr.getD 0 0) ++ [58] ++ fmt_02x (chaddr.getD 1 0) ++ [58] ++
      fmt_02x (chaddr.getD 2 0) ++ [58] ++ fmt_02x (chaddr.getD 3 0) ++ [58] ++
      fmt_02x (chaddr.getD 4 0) ++ [58] ++ fmt_02x (chaddr.getD 5 0))

/-- `memcpy (dst, src, n)`. -/
def memcpy (dst src : List Nat) (n : Nat) : List Nat := src.take n ++ dst.drop n

/-- The body of the loop of `main` from the cookie test on, for the packet in
`request`: the packet sent, if one is, and the new value of `counter`. -/
def handle (devices : List auth_device) (counter : Nat)
    (request : dhcp_packet) : Option dhcp_packet × Nat :=
  if ntohl request.magic ≠ 0x63825363 then (none, counter)
  else
    let msg_type := scan request.options
    if msg_type ≠ 1 ∧ msg_type ≠ 3 then (none, counter)
    else
      let mac := format_mac request.chaddr
      let r := get_ip_for_mac devices counter mac
      (some
        { zero_packet with
          op := 2
          htype := 1
          hlen := 6
          xid := request.xid
          flags := request.flags
          yiaddr := inet_addr r.1
          siaddr := inet_addr (cstr "192.168.4.1")
          chaddr := memcpy zero_packet.chaddr request.chaddr 16
          magic := htonl 0x63825363
          options := build_options msg_type },
        r.2)

/-- One iteration of the loop of `main`: `recvfrom` fails (`none`, the case
`bytes < 0`) or stores a datagram over the previous content `buf` of
`request`. -/
def serve (devices : List auth_device) (counter : Nat) (buf : List Nat)
    (dgram : Option (List Nat)) : Option dhcp_packet × Nat :=
  match dgram with
  | none => (none, counter)
  | some d => handle devices counter (decode (recvfrom buf d))

/-! ## Notions of the specification -/

/-- Two MAC strings are equal when ASCII letter case is ignored. -/
def eqIgnoreCase (a b : List Nat) : Prop := a.map tolower = b.map tolower

instance (a b : List Nat) : Decidable (eqIgnoreCase a b) := by
  unfold eqIgnoreCase; infer_instance

/-- Every `mac` of the table is a C string. -/
def TableOk (devices : List auth_device) : Prop := ∀ d ∈ devices, NoNul d.mac

instance (devices : List auth_device) : Decidable (TableOk devices) := by
  unfold TableOk; infer_instance

/-- A sequence of calls of `get_ip_for_mac`, one for each MAC of the list:
the strings returned, in order, and the final value of `counter`. -/
def calls (devices : List auth_device) : Nat → List (List Nat) → List (List Nat) × Nat
  | counter, [] => ([], counter)
  | counter, mac :: macs =>
    let r := get_ip_for_mac devices counter mac
    let rest := calls devices r.2 macs
    (r.1 :: rest.1, rest.2)

/-- The `(code, length, value)` encoding of one option. -/
def tlv (code : Nat) (value : List Nat) : List Nat := code :: value.length :: value

/-- The cookie that follows the fixed header. -/
def DHCP_MAGIC : Nat := 0x63825363

/-- The server accepts a request: the cookie is right and the message type
found is 1 (Discover) or 3 (Request). -/
def Accepted (request : dhcp_packet) : Prop :=
  request.magic = DHCP_MAGIC ∧ (scan request.options = 1 ∨ scan request.options = 3)

instance (request : dhcp_packet) : Decidable (Accepted request) := by
  unfold Accepted; infer_instance

/-- A Discover with the given `chaddr` field, every other field zero. -/
def discover_from (chaddr : List Nat) : dhcp_packet :=
  { zero_packet with
    op := 1
    htype := 1
    hlen := 6
    chaddr := chaddr
    magic := DHCP_MAGIC
    options := [53, 1, 1, 255] ++ List.replicate 308 0 }

/-- A Discover whose `chaddr` field carries non-zero bytes after the 6-byte
hardware address. -/
def discover_padded : dhcp_packet :=
  discover_from [0xaa, 0xbb, 0xcc, 0xdd, 0xee, 0xff, 1, 2, 3, 4, 5, 6, 7, 8, 9, 10]

/-- A table with one record: aa:bb:cc:dd:ee:ff reserved to 192.168.4.50. -/
def camera_table : List auth_device :=
  [⟨cstr "aa:bb:cc:dd:ee:ff", cstr "192.168.4.50", cstr "camera"⟩]

/-- A Discover from aa:bb:cc:dd:ee:ff. -/
def discover_camera : dhcp_packet :=
  discover_from [0xaa, 0xbb, 0xcc, 0xdd, 0xee, 0xff, 0, 0, 0, 0, 0, 0, 0, 0, 0, 0]

/-- The offset of the option that follows the one at offset `i`: a pad byte 0
advances by one, any other option by 2 plus its length byte. -/
def nextOption (o : List Nat) (i : Nat) : Nat :=
  if o.getD i 0 = 0 then i + 1 else i + 2 + o.getD (i + 1) 0

/-- The offsets that the walk of the options from offset 0 visits: it stops
at code 255 and at offset 308. -/
inductive Boundary (o : List Nat) : Nat → Prop
  | start : Boundary o 0
  | next {i : Nat} : Boundary o i → i < 308 → o.getD i 0 ≠ 255 →
      Boundary o (nextOption o i)

/-- The walk reaches an option with code 53 whose value byte is `v`. -/
def ReachesType (o : List Nat) (v : Nat) : Prop :=
  ∃ i, Boundary o i ∧ i < 308 ∧ o.getD i 0 = 53 ∧ o.getD (i + 2) 0 = v

/-- The first option with code 53 that the walk reaches has the value byte
`v`. -/
def FirstType (o : List Nat) (v : Nat) : Prop :=
  ∃ i, Boundary o i ∧ i < 308 ∧ o.getD i 0 = 53 ∧
    (∀ j, j < i → Boundary o j → o.getD j 0 ≠ 53) ∧ o.getD (i + 2) 0 = v

/-- A datagram of 240 bytes: a zero header and the cookie, no option byte. -/
def datagram_cookie_only : List Nat :=
  List.replicate 236 0 ++ [0x63, 0x82, 0x53, 0x63]

/-- A datagram of 244 bytes: a zero header, the cookie, and the message type
option 53 = 2 (Offer) followed by the terminator. -/
def datagram_offer : List Nat :=
  List.replicate 236 0 ++ [0x63, 0x82, 0x53, 0x63] ++ [53, 1, 2, 255]

/-- A datagram of 244 bytes: a zero header, a cookie that is off by one, and
the options of a Discover. -/
def datagram_bad_cookie : List Nat :=
  List.replicate 236 0 ++ [0x63, 0x82, 0x53, 0x64] ++ [53, 1, 1, 255]

/-- The string `192.168.4.n`. -/
def pool_addr (n : Nat) : List Nat := cstr "192.168.4." ++ fmt_d n

/-- The strings `192.168.4.100` to `192.168.4.200`, in order. -/
def pool_addrs : List (List Nat) := (List.range 101).map fun n => pool_addr (100 + n)

/-- A MAC string that no record of the table matches. -/
def Absent (devices : List auth_device) (mac : List Nat) : Prop :=
  NoNul mac ∧ ∀ d ∈ devices, ¬ eqIgnoreCase mac d.mac

instance (devices : List auth_device) (mac : List Nat) : Decidable (Absent devices mac) := by
  unfold Absent; infer_instance

/-- A MAC string that `camera_table` does not list. -/
def unlisted_mac : List Nat := cstr "11:22:33:44:55:66"

/-- The 552 bytes of a Discover from aa:bb:cc:dd:ee:ff, as an earlier
iteration of the loop leaves them in `request`. -/
def stale_discover : List Nat :=
  [1, 1, 6, 0] ++ List.replicate 24 0 ++ [0xaa, 0xbb, 0xcc, 0xdd, 0xee, 0xff] ++
    List.replicate 202 0 ++ [0x63, 0x82, 0x53, 0x63] ++ [53, 1, 1, 255] ++
    List.replicate 308 0

/-- The option at offset `j` is malformed: it stands at an offset the walk
visits, is neither a pad nor the terminator, and its declared length runs
past the end of the 312-byte options field. -/
def MalformedAt (o : List Nat) (j : Nat) : Prop :=
  Boundary o j ∧ j + 1 < 312 ∧ o.getD j 0 ≠ 0 ∧ o.getD j 0 ≠ 255 ∧
    312 < j + 2 + o.getD (j + 1) 0

/-- A Discover whose options are: message type 53 = 1 at offset 0, an option
12 of length 250 at offset 3, and at offset 255 an option 12 that declares 200
bytes where 55 remain. -/
def discover_overrun : dhcp_packet :=
  { discover_camera with
    options := [53, 1, 1] ++ [12, 250] ++ List.replicate 250 65 ++ [12, 200] ++
      List.replicate 55 65 }

/-- A request whose options are: an option 12 of length 100 at offset 0, at
offset 102 an option 12 that declares 250 bytes where 208 remain, and behind
it the bytes 53, 1, 1. -/
def discover_overrun_first : dhcp_packet :=
  { discover_camera with
    options := [12, 100] ++ List.replicate 100 65 ++ [12, 250] ++ [53, 1, 1] ++
      List.replicate 205 0 }

/-- A table with one record, which reserves the pool address 192.168.4.100
for aa:bb:cc:dd:ee:ff. -/
def pool_reserving_table : List auth_device :=
  [⟨cstr "aa:bb:cc:dd:ee:ff", cstr "192.168.4.100", cstr "camera"⟩]

/-! ## Lemmas on the library functions -/

theorem tolower_eq_zero (c : Nat) : tolower c = 0 ↔ c = 0 := by
  unfold tolower; split <;> omega

theorem tolower_tolower (c : Nat) : tolower (tolower c) = tolower c := by
  unfold tolower; split_ifs <;> omega

theorem tolower_toupper (c : Nat) : tolower (toupper c) = tolower c := by
  unfold tolower toupper; split_ifs <;> omega

theorem eqIgnoreCase_map_tolower (s : List Nat) : eqIgnoreCase (s.map tolower) s := by
  unfold eqIgnoreCase
  rw [List.map_map]
  exact List.map_congr_left fun c _ => tolower_tolower c

theorem eqIgnoreCase_map_toupper (s : List Nat) : eqIgnoreCase (s.map toupper) s := by
  unfold eqIgnoreCase
  rw [List.map_map]
  exact List.map_congr_left fun c _ => tolower_toupper c

/-- On C strings `strcasecmp` returns 0 exactly for strings that are equal up to
letter case. -/
theorem strcasecmp_eq_zero_iff (a b : List Nat) (ha : NoNul a) (hb : NoNul b) :
    strcasecmp a b = 0 ↔ eqIgnoreCase a b := by
  unfold eqIgnoreCase
  induction a generalizing b with
  | nil =>
    cases b with
    | nil => simp [strcasecmp]
    | cons y ys =>
      have hy : y ≠ 0 := hb y (List.mem_cons_self _ _)
      have : tolower y ≠ 0 := fun h => hy ((tolower_eq_zero y).1 h)
      simp [strcasecmp]; omega
  | cons x xs ih =>
    cases b with
    | nil =>
      have hx : x ≠ 0 := ha x (List.mem_cons_self _ _)
      have : tolower x ≠ 0 := fun h => hx ((tolower_eq_zero x).1 h)
      simp [strcasecmp]; omega
    | cons y ys =>
      have ha2 : NoNul xs := fun c hc => ha c (List.mem_cons_of_mem _ hc)
      have hb2 : NoNul ys := fun c hc => hb c (List.mem_cons_of_mem _ hc)
      by_cases hxy : tolower x = tolower y
      · simp [strcasecmp, hxy, ih ys ha2 hb2]
      · simp [strcasecmp, hxy]; omega

/-- The result of `strcasecmp` depends on its first argument only up to letter
case. -/
theorem strcasecmp_congr_left (a a2 b : List Nat) (h : eqIgnoreCase a a2) :
    strcasecmp a b = strcasecmp a2 b := by
  unfold eqIgnoreCase at h
  induction a generalizing a2 b with
  | nil =>
    cases a2 with
    | nil => rfl
    | cons _ _ => simp at h
  | cons x xs ih =>
    cases a2 with
    | nil => simp at h
    | cons x2 xs2 =>
      simp only [List.map_cons, List.cons.injEq] at h
      cases b with
      | nil => simp [strcasecmp, h.1]
      | cons y ys => simp [strcasecmp, h.1, ih xs2 ys h.2]

theorem lookup_device_congr (devices : List auth_device) (a a2 : List Nat)
    (h : eqIgnoreCase a a2) : lookup_device devices a = lookup_device devices a2 := by
  induction devices with
  | nil => rfl
  | cons d ds ih => simp [lookup_device, strcasecmp_congr_left a a2 d.mac h, ih]

/-- The table loop returns the `ip` of the first record that matches. -/
theorem lookup_device_first (devices : List auth_device) (mac : List Nat)
    (hT : TableOk devices) (hm : NoNul mac)
    (h : ∃ d ∈ devices, eqIgnoreCase mac d.mac) :
    ∃ pre d post, devices = pre ++ d :: post ∧
      (∀ e ∈ pre, ¬ eqIgnoreCase mac e.mac) ∧ eqIgnoreCase mac d.mac ∧
      lookup_device devices mac = some d.ip := by
  induction devices with
  | nil => obtain ⟨d, hd, _⟩ := h; cases hd
  | cons x xs ih =>
    have hx : NoNul x.mac := hT x (List.mem_cons_self _ _)
    by_cases hc : eqIgnoreCase mac x.mac
    · refine ⟨[], x, xs, rfl, ?_, hc, ?_⟩
      · intro e he; cases he
      · simp [lookup_device, (strcasecmp_eq_zero_iff mac x.mac hm hx).2 hc]
    · have hT2 : TableOk xs := fun d hd => hT d (List.mem_cons_of_mem _ hd)
      have h2 : ∃ d ∈ xs, eqIgnoreCase mac d.mac := by
        obtain ⟨d, hd, hdm⟩ := h
        rcases List.mem_cons.1 hd with rfl | hd
        · exact absurd hdm hc
        · exact ⟨d, hd, hdm⟩
      obtain ⟨pre, d, post, hdev, hpre, hd, hl⟩ := ih hT2 h2
      refine ⟨x :: pre, d, post, by simp [hdev], ?_, hd, ?_⟩
      · intro e he
        rcases List.mem_cons.1 he with rfl | he
        · exact hc
        · exact hpre e he
      · have : strcasecmp mac x.mac ≠ 0 :=
          fun h0 => hc ((strcasecmp_eq_zero_iff mac x.mac hm hx).1 h0)
        simp [lookup_device, this, hl]

/-- The table loop finds nothing when no record matches. -/
theorem lookup_device_absent (devices : List auth_device) (mac : List Nat)
    (hT : TableOk devices) (hm : NoNul mac)
    (h : ∀ d ∈ devices, ¬ eqIgnoreCase mac d.mac) :
    lookup_device devices mac = none := by
  induction devices with
  | nil => rfl
  | cons x xs ih =>
    have hx : NoNul x.mac := hT x (List.mem_cons_self _ _)
    have : strcasecmp mac x.mac ≠ 0 := fun h0 =>
      h x (List.mem_cons_self _ _) ((strcasecmp_eq_zero_iff mac x.mac hm hx).1 h0)
    simp only [lookup_device, this, if_false]
    exact ih (fun d hd => hT d (List.mem_cons_of_mem _ hd))
      (fun d hd => h d (List.mem_cons_of_mem _ hd))

/-! ## The claims -/

/-- C1: for a MAC string that equals, ignoring letter case, the `mac` of some
record of the table, `get_ip_for_mac` returns the `ip` of the first such
record and leaves the pool counter alone, whatever the counter is and whatever
calls were made before; every spelling of the MAC that differs in letter case
only, the upper-case and the lower-case one among them, gives the same
result. -/
theorem get_ip_for_mac_reserved (devices : List auth_device) (mac : List Nat)
    (hT : TableOk devices) (hm : NoNul mac)
    (h : ∃ d ∈ devices, eqIgnoreCase mac d.mac) :
    ∃ pre d post, devices = pre ++ d :: post ∧
      (∀ e ∈ pre, ¬ eqIgnoreCase mac e.mac) ∧ eqIgnoreCase mac d.mac ∧
      (∀ counter, get_ip_for_mac devices counter mac = (d.ip, counter)) ∧
      (∀ counter earlier,
        get_ip_for_mac devices (calls devices counter earlier).2 mac =
          (d.ip, (calls devices counter earlier).2)) ∧
      (∀ counter mac2, eqIgnoreCase mac2 mac →
        get_ip_for_mac devices counter mac2 = (d.ip, counter)) ∧
      (∀ counter, get_ip_for_mac devices counter (mac.map toupper) = (d.ip, counter)) ∧
      (∀ counter, get_ip_for_mac devices counter (mac.map tolower) = (d.ip, counter)) := by
  obtain ⟨pre, d, post, hdev, hpre, hd, hl⟩ := lookup_device_first devices mac hT hm h
  have key : ∀ counter mac2, eqIgnoreCase mac2 mac →
      get_ip_for_mac devices counter mac2 = (d.ip, counter) := by
    intro counter mac2 h2
    simp [get_ip_for_mac, lookup_device_congr devices mac2 mac h2, hl]
  exact ⟨pre, d, post, hdev, hpre, hd, fun c => key c mac rfl,
    fun c e => key _ mac rfl, key,
    fun c => key c _ (eqIgnoreCase_map_toupper mac),
    fun c => key c _ (eqIgnoreCase_map_tolower mac)⟩

/-- C1 at a table that reserves 192.168.4.50 for aa:bb:cc:dd:ee:ff, asked with
the upper-case spelling. -/
theorem get_ip_for_mac_reserved_witness :
    TableOk [⟨cstr "aa:bb:cc:dd:ee:ff", cstr "192.168.4.50", cstr "camera"⟩] ∧
    NoNul (cstr "AA:BB:CC:DD:EE:FF") ∧
    ∃ pre d post,
      [(⟨cstr "aa:bb:cc:dd:ee:ff", cstr "192.168.4.50", cstr "camera"⟩ : auth_device)] =
        pre ++ d :: post ∧
      (∀ e ∈ pre, ¬ eqIgnoreCase (cstr "AA:BB:CC:DD:EE:FF") e.mac) ∧
      eqIgnoreCase (cstr "AA:BB:CC:DD:EE:FF") d.mac ∧
      (∀ counter,
        get_ip_for_mac [⟨cstr "aa:bb:cc:dd:ee:ff", cstr "192.168.4.50", cstr "camera"⟩]
          counter (cstr "AA:BB:CC:DD:EE:FF") = (d.ip, counter)) :=
  ⟨by decide, by decide,
    (get_ip_for_mac_reserved
      [⟨cstr "aa:bb:cc:dd:ee:ff", cstr "192.168.4.50", cstr "camera"⟩]
      (cstr "AA:BB:CC:DD:EE:FF") (by decide) (by decide) (by decide)).imp
      fun _ h => h.imp fun _ h => h.imp fun _ h => ⟨h.1, h.2.1, h.2.2.1, h.2.2.2.1⟩⟩

/-! ### The reply -/

theorem lookup_device_at (pre post : List auth_device) (d : auth_device)
    (mac : List Nat) (hpre : ∀ e ∈ pre, strcasecmp mac e.mac ≠ 0)
    (hd : strcasecmp mac d.mac = 0) :
    lookup_device (pre ++ d :: post) mac = some d.ip := by
  induction pre with
  | nil => simp [lookup_device, hd]
  | cons x xs ih =>
    have hx := hpre x (List.mem_cons_self _ _)
    simp only [List.cons_append, lookup_device, hx, if_false]
    exact ih fun e he => hpre e (List.mem_cons_of_mem _ he)

/-- The options written in answer to a Discover. -/
theorem build_options_discover :
    build_options 1 =
      [53, 1, 2, 54, 4, 192, 168, 4, 1, 51, 4, 0, 1, 81, 128, 58, 4, 0, 0, 168, 192,
        59, 4, 0, 1, 39, 80, 1, 4, 255, 255, 255, 0, 28, 4, 192, 168, 4, 255,
        6, 8, 8, 8, 8, 8, 8, 8, 4, 4, 3, 4, 192, 168, 4, 1, 255] ++
      List.replicate 256 0 := by
  rfl

/-- The options written in answer to a Request. -/
theorem build_options_request :
    build_options 3 =
      [53, 1, 5, 54, 4, 192, 168, 4, 1, 51, 4, 0, 1, 81, 128, 58, 4, 0, 0, 168, 192,
        59, 4, 0, 1, 39, 80, 1, 4, 255, 255, 255, 0, 28, 4, 192, 168, 4, 255,
        6, 8, 8, 8, 8, 8, 8, 8, 4, 4, 3, 4, 192, 168, 4, 1, 255] ++
      List.replicate 256 0 := by
  rfl

/-- An accepted request is answered, and the answer is the packet that the
code assembles. -/
theorem handle_accepted (devices : List auth_device) (counter : Nat)
    (request : dhcp_packet) (h : Accepted request) :
    handle devices counter request =
      (some
        { zero_packet with
          op := 2
          htype := 1
          hlen := 6
          xid := request.xid
          flags := request.flags
          yiaddr := inet_addr (get_ip_for_mac devices counter (format_mac request.chaddr)).1
          siaddr := inet_addr (cstr "192.168.4.1")
          chaddr := memcpy zero_packet.chaddr request.chaddr 16
          magic := htonl 0x63825363
          options := build_options (scan request.options) },
        (get_ip_for_mac devices counter (format_mac request.chaddr)).2) := by
  obtain ⟨hm, ht⟩ := h
  have h1 : ¬ (scan request.options ≠ 1 ∧ scan request.options ≠ 3) := by omega
  have h0 : ¬ (ntohl request.magic ≠ 0x63825363) := by
    simp [ntohl, hm, DHCP_MAGIC]
  unfold handle
  rw [if_neg h0]
  simp only [if_neg h1]

/-- C2: an accepted request is answered with a packet whose fixed header has
op 2, htype 1, hlen 6, the xid and flags of the request, as yiaddr the address
`get_ip_for_mac` returns for the lower-case colon-separated rendering of
chaddr[0..5], siaddr 192.168.4.1, the cookie 63 82 53 63, and zero in hops,
secs, ciaddr, giaddr, sname and file.  When the request is a Discover from
aa:bb:cc:dd:ee:ff and the first record of the table with that MAC reserves
192.168.4.50, the answer is an Offer (message type 2) of 192.168.4.50. -/
theorem reply_header (devices : List auth_device) (counter : Nat)
    (request : dhcp_packet) (h : Accepted request) :
    ∃ resp, (handle devices counter request).1 = some resp ∧
      resp.op = 2 ∧ resp.htype = 1 ∧ resp.hlen = 6 ∧
      resp.xid = request.xid ∧ resp.flags = request.flags ∧
      format_mac request.chaddr =
        [hexDigit (request.chaddr.getD 0 0 / 16 % 16), hexDigit (request.chaddr.getD 0 0 % 16), 58,
         hexDigit (request.chaddr.getD 1 0 / 16 % 16), hexDigit (request.chaddr.getD 1 0 % 16), 58,
         hexDigit (request.chaddr.getD 2 0 / 16 % 16), hexDigit (request.chaddr.getD 2 0 % 16), 58,
         hexDigit (request.chaddr.getD 3 0 / 16 % 16), hexDigit (request.chaddr.getD 3 0 % 16), 58,
         hexDigit (request.chaddr.getD 4 0 / 16 % 16), hexDigit (request.chaddr.getD 4 0 % 16), 58,
         hexDigit (request.chaddr.getD 5 0 / 16 % 16), hexDigit (request.chaddr.getD 5 0 % 16)] ∧
      resp.yiaddr =
        inet_addr (get_ip_for_mac devices counter (format_mac request.chaddr)).1 ∧
      be32 resp.siaddr = [192, 168, 4, 1] ∧
      resp.magic = 0x63825363 ∧ be32 resp.magic = [0x63, 0x82, 0x53, 0x63] ∧
      resp.hops = 0 ∧ resp.secs = 0 ∧ resp.ciaddr = 0 ∧ resp.giaddr = 0 ∧
      resp.sname = List.replicate 64 0 ∧ resp.file = List.replicate 128 0 ∧
      (∀ pre post name,
        devices = pre ++ ⟨cstr "aa:bb:cc:dd:ee:ff", cstr "192.168.4.50", name⟩ :: post →
        TableOk pre →
        (∀ e ∈ pre, ¬ eqIgnoreCase (cstr "aa:bb:cc:dd:ee:ff") e.mac) →
        scan request.options = 1 →
        (∀ i, i < 6 → request.chaddr.getD i 0 = [0xaa, 0xbb, 0xcc, 0xdd, 0xee, 0xff].getD i 0) →
        be32 resp.yiaddr = [192, 168, 4, 50] ∧ resp.options.take 3 = tlv 53 [2]) := by
  rw [handle_accepted devices counter request h]
  refine ⟨_, rfl, rfl, rfl, rfl, rfl, rfl, rfl, rfl, ?_, rfl, ?_, rfl, rfl, rfl, rfl, rfl,
    rfl, ?_⟩
  · show be32 (inet_addr (cstr "192.168.4.1")) = _
    decide
  · show be32 (htonl 0x63825363) = _
    decide
  · intro pre post name hdev hpre hno hdisc hch
    have hmac : format_mac request.chaddr = cstr "aa:bb:cc:dd:ee:ff" := by
      have h0 := hch 0 (by norm_num)
      have h1 := hch 1 (by norm_num)
      have h2 := hch 2 (by norm_num)
      have h3 := hch 3 (by norm_num)
      have h4 := hch 4 (by norm_num)
      have h5 := hch 5 (by norm_num)
      unfold format_mac
      rw [h0, h1, h2, h3, h4, h5]
      decide
    have hlook : lookup_device devices (cstr "aa:bb:cc:dd:ee:ff") =
        some (cstr "192.168.4.50") := by
      rw [hdev]
      have hself : strcasecmp (cstr "aa:bb:cc:dd:ee:ff") (cstr "aa:bb:cc:dd:ee:ff") = 0 := by
        decide
      refine lookup_device_at pre post _ _ ?_ hself
      intro e he h0
      exact hno e he ((strcasecmp_eq_zero_iff _ _ (by decide) (hpre e he)).1 h0)
    constructor
    · show be32 (inet_addr (get_ip_for_mac devices counter (format_mac request.chaddr)).1) = _
      rw [hmac]
      simp only [get_ip_for_mac, hlook]
      decide
    · simp only [hdisc, build_options_discover]
      rfl

/-- C2 at the scenario of the specification: the table reserves 192.168.4.50
for aa:bb:cc:dd:ee:ff and a Discover arrives from that address. -/
theorem reply_header_witness :
    Accepted discover_camera ∧
    ∃ resp, (handle camera_table 100 discover_camera).1 = some resp ∧
      resp.op = 2 ∧ be32 resp.yiaddr = [192, 168, 4, 50] ∧
      resp.options.take 3 = tlv 53 [2] := by
  have hacc : Accepted discover_camera := by decide
  obtain ⟨resp, hresp, hop, -, -, -, -, -, -, -, -, -, -, -, -, -, -, -, hscen⟩ :=
    reply_header camera_table 100 discover_camera hacc
  have h := hscen [] [] (cstr "camera") rfl (by decide) (by decide) (by decide) (by decide)
  exact ⟨hacc, resp, hresp, hop, h.1, h.2⟩

/-- C3: the options field of the answer to an accepted request is, in this
order, the (code, length, value) encoding of message type 53 (2 for a
Discover, 5 for a Request), server identifier 54 = 192.168.4.1, lease time
51 = 86400, renewal time 58 = 43200, rebinding time 59 = 75600 (four bytes,
most significant first), subnet mask 1 = 255.255.255.0, broadcast address
28 = 192.168.4.255, DNS servers 6 = 8.8.8.8 and 8.8.4.4, router 3 =
192.168.4.1, then the terminator 255 at offset 55 and zero bytes up to
offset 311. -/
theorem reply_options (devices : List auth_device) (counter : Nat)
    (request : dhcp_packet) (h : Accepted request) :
    ∃ resp, (handle devices counter request).1 = some resp ∧
      resp.options =
        tlv 53 [if scan request.options = 1 then 2 else 5] ++
        tlv 54 [192, 168, 4, 1] ++
        tlv 51 (be32 86400) ++
        tlv 58 (be32 43200) ++
        tlv 59 (be32 75600) ++
        tlv 1 [255, 255, 255, 0] ++
        tlv 28 [192, 168, 4, 255] ++
        tlv 6 [8, 8, 8, 8, 8, 8, 4, 4] ++
        tlv 3 [192, 168, 4, 1] ++
        [255] ++ List.replicate 256 0 ∧
      resp.options.length = 312 ∧
      resp.options.getD 55 0 = 255 ∧
      ∀ i, 56 ≤ i → i < 312 → resp.options.getD i 0 = 0 := by
  rw [handle_accepted devices counter request h]
  refine ⟨_, rfl, ?_⟩
  have hopt : ∀ m, m = 1 ∨ m = 3 →
      build_options m =
        tlv 53 [if m = 1 then 2 else 5] ++ tlv 54 [192, 168, 4, 1] ++
        tlv 51 (be32 86400) ++ tlv 58 (be32 43200) ++ tlv 59 (be32 75600) ++
        tlv 1 [255, 255, 255, 0] ++ tlv 28 [192, 168, 4, 255] ++
        tlv 6 [8, 8, 8, 8, 8, 8, 4, 4] ++ tlv 3 [192, 168, 4, 1] ++
        [255] ++ List.replicate 256 0 := by
    intro m hm
    rcases hm with rfl | rfl
    · rw [build_options_discover]; rfl
    · rw [build_options_request]; rfl
  have htail : ∀ m, m = 1 ∨ m = 3 → ∀ i, 56 ≤ i → i < 312 →
      (build_options m).getD i 0 = 0 := by
    intro m hm i h1 h2
    have hrep : ∀ (pre : List Nat), pre.length = 56 →
        (pre ++ List.replicate 256 0).getD i 0 = 0 := by
      intro pre hpre
      rw [List.getD_eq_getElem?_getD, List.getElem?_append_right (by omega)]
      simp only [List.getElem?_replicate]
      split <;> rfl
    rcases hm with rfl | rfl
    · rw [build_options_discover]; exact hrep _ rfl
    · rw [build_options_request]; exact hrep _ rfl
  dsimp only
  refine ⟨hopt _ h.2, ?_, ?_, htail _ h.2⟩
  · show (build_options (scan request.options)).length = 312
    rcases h.2 with h1 | h1 <;> rw [h1]
    · rw [build_options_discover]; rfl
    · rw [build_options_request]; rfl
  · show (build_options (scan request.options)).getD 55 0 = 255
    rcases h.2 with h1 | h1 <;> rw [h1]
    · rw [build_options_discover]; rfl
    · rw [build_options_request]; rfl

/-- C3 at a Discover from aa:bb:cc:dd:ee:ff. -/
theorem reply_options_witness :
    Accepted discover_camera ∧
    ∃ resp, (handle camera_table 100 discover_camera).1 = some resp ∧
      resp.options.length = 312 ∧ resp.options.getD 55 0 = 255 := by
  have hacc : Accepted discover_camera := by decide
  obtain ⟨resp, hresp, -, hlen, hterm, -⟩ :=
    reply_options camera_table 100 discover_camera hacc
  exact ⟨hacc, resp, hresp, hlen, hterm⟩

/-! ### The scan for the message type -/

theorem lt_nextOption (o : List Nat) (i : Nat) : i < nextOption o i := by
  unfold nextOption; split <;> omega

/-- Iterations beyond `308 - i` are never used. -/
theorem scanLoop_fuel (o : List Nat) (fuel extra i : Nat) (h : 308 ≤ i + fuel) :
    scanLoop o (fuel + extra) i = scanLoop o fuel i := by
  induction fuel generalizing i with
  | zero =>
    cases extra with
    | zero => rfl
    | succ e =>
      have : ¬ i < 308 := by omega
      simp [scanLoop, this]
  | succ n ih =>
    have e : n + 1 + extra = (n + extra) + 1 := by omega
    rw [e]
    simp only [scanLoop]
    rw [ih (i + 1) (by omega), ih (i + 2 + o.getD (i + 1) 0) (by omega)]

/-- The walk is deterministic: between a visited offset and its successor no
other offset is visited. -/
theorem boundary_next_le (o : List Nat) :
    ∀ j i, Boundary o i → Boundary o j → i < j →
      i < 308 ∧ o.getD i 0 ≠ 255 ∧ nextOption o i ≤ j := by
  intro j
  induction j using Nat.strong_induction_on with
  | _ j ih =>
    intro i hi hj hlt
    cases hj with
    | start => omega
    | @next j0 hj0 h308 h255 =>
      have hj0lt := lt_nextOption o j0
      rcases Nat.lt_trichotomy i j0 with h | h | h
      · obtain ⟨a, b, c⟩ := ih j0 hj0lt i hi hj0 h
        exact ⟨a, b, by omega⟩
      · subst h
        exact ⟨h308, h255, le_refl _⟩
      · obtain ⟨_, _, c⟩ := ih i hlt j0 hj0 hi h
        omega

theorem scanLoop_stop (o : List Nat) (n i : Nat) (h : ¬ i < 308) :
    scanLoop o (n + 1) i = (0, []) := by
  rw [scanLoop, if_neg h]

theorem scanLoop_end (o : List Nat) (n i : Nat) (h : i < 308) (h255 : o.getD i 0 = 255) :
    scanLoop o (n + 1) i = (0, [i]) := by
  rw [scanLoop, if_pos h, if_neg (not_not.2 h255)]

theorem scanLoop_found (o : List Nat) (n i : Nat) (h : i < 308) (h53 : o.getD i 0 = 53) :
    scanLoop o (n + 1) i = (o.getD (i + 2) 0, [i, i, i + 2]) := by
  have h255 : o.getD i 0 ≠ 255 := by omega
  rw [scanLoop, if_pos h, if_pos h255, if_pos h53]

theorem scanLoop_pad (o : List Nat) (n i : Nat) (h : i < 308) (h0 : o.getD i 0 = 0) :
    scanLoop o (n + 1) i =
      ((scanLoop o n (i + 1)).1, i :: i :: i :: (scanLoop o n (i + 1)).2) := by
  have h255 : o.getD i 0 ≠ 255 := by omega
  have h53 : ¬ o.getD i 0 = 53 := by omega
  rw [scanLoop, if_pos h, if_pos h255, if_neg h53, if_pos h0]

theorem scanLoop_skip (o : List Nat) (n i : Nat) (h : i < 308)
    (h255 : o.getD i 0 ≠ 255) (h53 : o.getD i 0 ≠ 53) (h0 : o.getD i 0 ≠ 0) :
    scanLoop o (n + 1) i =
      ((scanLoop o n (i + 2 + o.getD (i + 1) 0)).1,
        i :: i :: i :: (i + 1) :: (scanLoop o n (i + 2 + o.getD (i + 1) 0)).2) := by
  rw [scanLoop, if_pos h, if_pos h255, if_neg h53, if_neg h0]

theorem nextOption_pad (o : List Nat) (i : Nat) (h0 : o.getD i 0 = 0) :
    nextOption o i = i + 1 := by
  rw [nextOption, if_pos h0]

theorem nextOption_skip (o : List Nat) (i : Nat) (h0 : o.getD i 0 ≠ 0) :
    nextOption o i = i + 2 + o.getD (i + 1) 0 := by
  rw [nextOption, if_neg h0]

/-- A non-zero message type left by the loop is the value byte of the first
option 53 of the walk. -/
theorem scanLoop_sound (o : List Nat) (v : Nat) (hv : v ≠ 0) :
    ∀ fuel i, Boundary o i → (∀ j, j < i → Boundary o j → o.getD j 0 ≠ 53) →
      (scanLoop o fuel i).1 = v → FirstType o v := by
  intro fuel
  induction fuel with
  | zero => intro i _ _ h; exact absurd h.symm hv
  | succ n ih =>
    intro i hi hfirst h
    by_cases h308 : i < 308
    · by_cases h255 : o.getD i 0 = 255
      · rw [scanLoop_end o n i h308 h255] at h; exact absurd h.symm hv
      · by_cases h53 : o.getD i 0 = 53
        · rw [scanLoop_found o n i h308 h53] at h
          exact ⟨i, hi, h308, h53, hfirst, h⟩
        · have hnext : Boundary o (nextOption o i) := Boundary.next hi h308 h255
          have hfirst2 : ∀ j, j < nextOption o i → Boundary o j → o.getD j 0 ≠ 53 := by
            intro j hj hbj
            rcases Nat.lt_trichotomy j i with hlt | heq | hgt
            · exact hfirst j hlt hbj
            · subst heq; exact h53
            · have := (boundary_next_le o j i hi hbj hgt).2.2
              omega
          by_cases h0 : o.getD i 0 = 0
          · rw [nextOption_pad o i h0] at hnext hfirst2
            rw [scanLoop_pad o n i h308 h0] at h
            exact ih (i + 1) hnext hfirst2 h
          · rw [nextOption_skip o i h0] at hnext hfirst2
            rw [scanLoop_skip o n i h308 h255 h53 h0] at h
            exact ih _ hnext hfirst2 h
    · rw [scanLoop_stop o n i h308] at h; exact absurd h.symm hv

/-- The loop leaves the value byte of the first option 53 of the walk. -/
theorem scanLoop_complete (o : List Nat) (k : Nat) (hk : Boundary o k) (hk308 : k < 308)
    (hk53 : o.getD k 0 = 53) (hkfirst : ∀ j, j < k → Boundary o j → o.getD j 0 ≠ 53) :
    ∀ fuel i, 308 ≤ i + fuel → Boundary o i → i ≤ k →
      (scanLoop o fuel i).1 = o.getD (k + 2) 0 := by
  intro fuel
  induction fuel with
  | zero => intro i h _ hle; omega
  | succ n ih =>
    intro i hfuel hi hle
    rcases Nat.eq_or_lt_of_le hle with heq | hlt
    · subst heq
      rw [scanLoop_found o n i hk308 hk53]
    · obtain ⟨h308, h255, hnext⟩ := boundary_next_le o k i hi hk hlt
      have h53 : o.getD i 0 ≠ 53 := hkfirst i hlt hi
      have hb : Boundary o (nextOption o i) := Boundary.next hi h308 h255
      by_cases h0 : o.getD i 0 = 0
      · rw [nextOption_pad o i h0] at hb hnext
        rw [scanLoop_pad o n i h308 h0]
        exact ih (i + 1) (by omega) hb hnext
      · rw [nextOption_skip o i h0] at hb hnext
        rw [scanLoop_skip o n i h308 h255 h53 h0]
        exact ih _ (by omega) hb hnext

/-- The message type found is `v`, for `v` other than 0, exactly when the first
option 53 of the walk has the value byte `v`. -/
theorem scan_eq_iff (o : List Nat) (v : Nat) (hv : v ≠ 0) :
    scan o = v ↔ FirstType o v := by
  constructor
  · intro h
    exact scanLoop_sound o v hv 308 0 Boundary.start (fun j hj _ => absurd hj (by omega)) h
  · rintro ⟨k, hk, hk308, hk53, hkfirst, hval⟩
    rw [← hval]
    exact scanLoop_complete o k hk hk308 hk53 hkfirst 308 0 (by omega) Boundary.start
      (Nat.zero_le _)

theorem firstType_unique (o : List Nat) (v w : Nat) (hv : FirstType o v)
    (hw : FirstType o w) : v = w := by
  obtain ⟨i, hi, _, hi53, hif, rfl⟩ := hv
  obtain ⟨j, hj, _, hj53, hjf, rfl⟩ := hw
  rcases Nat.lt_trichotomy i j with h | h | h
  · exact absurd hi53 (hjf i h hi)
  · rw [h]
  · exact absurd hj53 (hif j h hj)

theorem handle_isSome_iff (devices : List auth_device) (counter : Nat)
    (request : dhcp_packet) :
    (handle devices counter request).1 ≠ none ↔ Accepted request := by
  constructor
  · intro h
    by_contra hacc
    apply h
    unfold Accepted at hacc
    unfold handle
    by_cases hm : ntohl request.magic ≠ 0x63825363
    · rw [if_pos hm]
    · rw [if_neg hm]
      have hm2 : request.magic = DHCP_MAGIC := by
        simpa [ntohl, DHCP_MAGIC] using hm
      have : scan request.options ≠ 1 ∧ scan request.options ≠ 3 := by
        constructor <;> intro h1 <;> exact hacc ⟨hm2, by simp [h1]⟩
      simp only [if_pos this]
  · intro h
    rw [handle_accepted devices counter request h]
    simp

theorem scanLoop_reads_le (o : List Nat) :
    ∀ fuel i j, j ∈ (scanLoop o fuel i).2 → j ≤ 309 := by
  intro fuel
  induction fuel with
  | zero => intro i j hj; simp [scanLoop] at hj
  | succ n ih =>
    intro i j hj
    by_cases h308 : i < 308
    · by_cases h255 : o.getD i 0 = 255
      · rw [scanLoop_end o n i h308 h255] at hj
        simp only [List.mem_singleton] at hj
        omega
      · by_cases h53 : o.getD i 0 = 53
        · rw [scanLoop_found o n i h308 h53] at hj
          simp only [List.mem_cons, List.mem_singleton] at hj
          have : j ∈ ([] : List Nat) → j ≤ 309 := fun h => by cases h
          rcases hj with h | h | h | h <;> first | omega | exact this h
        · by_cases h0 : o.getD i 0 = 0
          · rw [scanLoop_pad o n i h308 h0] at hj
            simp only [List.mem_cons] at hj
            rcases hj with h | h | h | h
            · omega
            · omega
            · omega
            · exact ih _ j h
          · rw [scanLoop_skip o n i h308 h255 h53 h0] at hj
            simp only [List.mem_cons] at hj
            rcases hj with h | h | h | h | h
            · omega
            · omega
            · omega
            · omega
            · exact ih _ j h
    · rw [scanLoop_stop o n i h308] at hj
      cases hj

theorem boundary_reaches_of_first (o : List Nat) (v : Nat) (h : FirstType o v) :
    ReachesType o v := by
  obtain ⟨i, hi, h308, h53, _, hv⟩ := h
  exact ⟨i, hi, h308, h53, hv⟩

/-- The packet in `request` is answered exactly when its cookie field is
0x63825363 and the first option 53 that the walk of its options reaches has the
value 1 or 3. -/
theorem handle_reply_iff (devices : List auth_device) (counter : Nat)
    (request : dhcp_packet) :
    (handle devices counter request).1 ≠ none ↔
      request.magic = 0x63825363 ∧
        (FirstType request.options 1 ∨ FirstType request.options 3) := by
  rw [handle_isSome_iff, Accepted, scan_eq_iff _ 1 (by omega), scan_eq_iff _ 3 (by omega)]
  rfl

/-- C6: whatever the options field of the request holds, every index of
`request.options` that the scan for the message type reads is at most 309,
hence inside the 312-byte field; the trace is that of the whole loop, which
ends within 308 iterations. -/
theorem scan_reads_in_bounds (options : List Nat) :
    (∀ n, 308 ≤ n → scanLoop options n 0 = scanLoop options 308 0) ∧
    ∀ j, j ∈ scanReads options → j ≤ 309 ∧ j < 312 := by
  constructor
  · intro n hn
    obtain ⟨e, rfl⟩ := Nat.exists_eq_add_of_le hn
    exact scanLoop_fuel options 308 e 0 (by omega)
  · intro j hj
    have := scanLoop_reads_le options 308 0 j hj
    omega

/-- C6 at the options of a Discover, where the value byte at index 2 is
read. -/
theorem scan_reads_in_bounds_witness :
    2 ∈ scanReads discover_camera.options ∧ 2 ≤ 309 ∧ 2 < 312 :=
  ⟨by decide, (scan_reads_in_bounds discover_camera.options).2 2 (by decide)⟩

/-! ### The pool -/

theorem fmt_d_three (n : Nat) (hlo : 100 ≤ n) (hhi : n ≤ 200) :
    fmt_d n = [48 + n / 100, 48 + n / 10 % 10, 48 + n % 10] := by
  interval_cases n <;> rfl

theorem snprintf_pool (c : Nat) (hlo : 100 ≤ c) (hhi : c ≤ 200) :
    snprintf 16 (cstr "192.168.4." ++ fmt_d c) = pool_addr c := by
  unfold pool_addr
  rw [fmt_d_three c hlo hhi]
  rfl

theorem pool_addr_inj (n m : Nat) (hn : 100 ≤ n) (hn2 : n ≤ 200) (hm : 100 ≤ m)
    (hm2 : m ≤ 200) (h : pool_addr n = pool_addr m) : n = m := by
  unfold pool_addr at h
  rw [fmt_d_three n hn hn2, fmt_d_three m hm hm2] at h
  have h2 := List.append_cancel_left h
  simp only [List.cons.injEq, and_true] at h2
  omega

/-- For a MAC that no record matches the address comes from the pool. -/
theorem get_ip_for_mac_absent (devices : List auth_device) (c : Nat) (mac : List Nat)
    (hT : TableOk devices) (hm : Absent devices mac) (hlo : 100 ≤ c) (hhi : c ≤ 200) :
    get_ip_for_mac devices c mac = (pool_addr c, if c = 200 then 100 else c + 1) := by
  unfold get_ip_for_mac
  rw [lookup_device_absent devices mac hT hm.1 hm.2]
  simp only [snprintf_pool c hlo hhi]
  congr 1
  split_ifs <;> omega

theorem calls_absent (devices : List auth_device) (hT : TableOk devices) :
    ∀ (macs : List (List Nat)) (c : Nat), (∀ m ∈ macs, Absent devices m) →
      100 ≤ c → c ≤ 200 →
      (calls devices c macs).1 =
          (List.range macs.length).map (fun k => pool_addr (100 + (c - 100 + k) % 101)) ∧
        (calls devices c macs).2 = 100 + (c - 100 + macs.length) % 101 := by
  intro macs
  induction macs with
  | nil =>
    intro c _ hlo hhi
    refine ⟨rfl, ?_⟩
    show c = _
    simp only [List.length_nil]
    omega
  | cons m ms ih =>
    intro c hm hlo hhi
    have habs := hm m (List.mem_cons_self _ _)
    have hrest : ∀ x ∈ ms, Absent devices x := fun x hx => hm x (List.mem_cons_of_mem _ hx)
    have hstep := get_ip_for_mac_absent devices c m hT habs hlo hhi
    have hc2 : 100 ≤ (if c = 200 then 100 else c + 1) ∧ (if c = 200 then 100 else c + 1) ≤ 200 := by
      split_ifs <;> omega
    obtain ⟨ih1, ih2⟩ := ih (if c = 200 then 100 else c + 1) hrest hc2.1 hc2.2
    simp only [calls, hstep, List.length_cons]
    constructor
    · rw [ih1, List.range_succ_eq_map, List.map_cons, List.map_map]
      congr 1
      · congr 1; omega
      · apply List.map_congr_left
        intro k _
        show pool_addr _ = pool_addr _
        congr 1
        split_ifs <;> omega
    · rw [ih2]
      split_ifs <;> omega

/-- C5: for MACs absent from the table and a pool counter `c` in 100..200, the
`k`-th call returns 192.168.4.(100 + (c - 100 + k) mod 101); the counter
after `k` calls is 100 + (c - 100 + k) mod 101, so it stays in 100..200,
advances by one per call and goes from 200 back to 100; any 101 consecutive
calls return the 101 pairwise different strings 192.168.4.100 ..
192.168.4.200, each once. -/
theorem pool_round_robin (devices : List auth_device) (c : Nat) (macs : List (List Nat))
    (hT : TableOk devices) (hm : ∀ m ∈ macs, Absent devices m)
    (hlo : 100 ≤ c) (hhi : c ≤ 200) :
    (calls devices c macs).1.length = macs.length ∧
    (∀ k, k < macs.length →
      (calls devices c macs).1.getD k [] = pool_addr (100 + (c - 100 + k) % 101)) ∧
    (∀ k, k ≤ macs.length →
      (calls devices c (macs.take k)).2 = 100 + (c - 100 + k) % 101) ∧
    (∀ k, k ≤ macs.length →
      100 ≤ (calls devices c (macs.take k)).2 ∧ (calls devices c (macs.take k)).2 ≤ 200) ∧
    (∀ k, k < macs.length →
      (calls devices c (macs.take (k + 1))).2 =
        if (calls devices c (macs.take k)).2 = 200 then 100
        else (calls devices c (macs.take k)).2 + 1) ∧
    (∀ s, s + 101 ≤ macs.length →
      (((calls devices c macs).1.drop s).take 101).Perm pool_addrs) ∧
    pool_addrs.Nodup ∧
    (∀ n, 100 ≤ n → n ≤ 200 → be32 (inet_addr (pool_addr n)) = [192, 168, 4, n]) := by
  obtain ⟨h1, _⟩ := calls_absent devices hT macs c hm hlo hhi
  have hcur : ∀ k, k ≤ macs.length →
      (calls devices c (macs.take k)).2 = 100 + (c - 100 + k) % 101 := by
    intro k hk
    have hmk : ∀ m ∈ macs.take k, Absent devices m :=
      fun m hmem => hm m (List.mem_of_mem_take hmem)
    have := (calls_absent devices hT (macs.take k) c hmk hlo hhi).2
    rw [this, List.length_take, Nat.min_eq_left hk]
  have hnodup : pool_addrs.Nodup := by
    unfold pool_addrs
    refine List.Nodup.map_on ?_ (List.nodup_range 101)
    intro x hx y hy hxy
    have hx2 := List.mem_range.1 hx
    have hy2 := List.mem_range.1 hy
    have := pool_addr_inj (100 + x) (100 + y) (by omega) (by omega) (by omega) (by omega) hxy
    omega
  refine ⟨?_, ?_, hcur, ?_, ?_, ?_, hnodup, ?_⟩
  · rw [h1, List.length_map, List.length_range]
  · intro k hk
    rw [h1, List.getD_eq_getElem?_getD, List.getElem?_map, List.getElem?_range hk]
    rfl
  · intro k hk
    rw [hcur k hk]
    omega
  · intro k hk
    rw [hcur k (by omega), hcur (k + 1) (by omega)]
    split_ifs <;> omega
  · intro s hs
    have hwin : ((calls devices c macs).1.drop s).take 101 =
        ((List.range 101).map (fun k => (c - 100 + s + k) % 101)).map
          (fun n => pool_addr (100 + n)) := by
      apply List.ext_getElem?
      intro n
      rw [h1, List.getElem?_take, List.getElem?_drop, List.map_map]
      simp only [List.getElem?_map]
      by_cases hn : n < 101
      · rw [if_pos hn, List.getElem?_range (by omega), List.getElem?_range hn]
        simp only [Option.map_some', Function.comp_apply]
        congr 3
        omega
      · rw [if_neg hn, List.getElem?_eq_none (by simp; omega)]
        rfl
    rw [hwin]
    unfold pool_addrs
    apply List.Perm.map
    refine (List.perm_ext_iff_of_nodup ?_ (List.nodup_range 101)).2 ?_
    · refine List.Nodup.map_on ?_ (List.nodup_range 101)
      intro x hx y hy hxy
      have hx2 := List.mem_range.1 hx
      have hy2 := List.mem_range.1 hy
      omega
    · intro a
      simp only [List.mem_map, List.mem_range]
      constructor
      · rintro ⟨k, _, rfl⟩
        exact Nat.mod_lt _ (by norm_num)
      · intro ha
        exact ⟨(a + 101 - (c - 100 + s) % 101) % 101, Nat.mod_lt _ (by norm_num), by omega⟩
  · intro n hn1 hn2
    interval_cases n <;> rfl

/-- C5 at three calls for an unlisted MAC that start with the counter at 199:
the third one returns 192.168.4.100. -/
theorem pool_round_robin_witness :
    TableOk camera_table ∧
    (∀ m ∈ [unlisted_mac, unlisted_mac, unlisted_mac], Absent camera_table m) ∧
    (calls camera_table 199 [unlisted_mac, unlisted_mac, unlisted_mac]).1.getD 2 [] =
      pool_addr (100 + (199 - 100 + 2) % 101) :=
  ⟨by decide, by decide,
    (pool_round_robin camera_table 199 [unlisted_mac, unlisted_mac, unlisted_mac]
      (by decide) (by decide) (by decide) (by decide)).2.1 2 (by decide)⟩

/-- C9 as stated fails: with the counter at 199 the first call for an unlisted
MAC returns 192.168.4.199, and the next one returns 192.168.4.200, not
192.168.4.100. -/
theorem pool_wrap_at_199_counterexample :
    Absent camera_table unlisted_mac ∧
    (get_ip_for_mac camera_table 199 unlisted_mac).1 = cstr "192.168.4.199" ∧
    (get_ip_for_mac camera_table (get_ip_for_mac camera_table 199 unlisted_mac).2
      unlisted_mac).1 = cstr "192.168.4.200" ∧
    (get_ip_for_mac camera_table (get_ip_for_mac camera_table 199 unlisted_mac).2
      unlisted_mac).1 ≠ cstr "192.168.4.100" := by
  decide

/-- C9, amended: with the counter at 199, three successive calls for MACs
absent from the table return 192.168.4.199, 192.168.4.200 and 192.168.4.100:
the upper bound 200 of the pool is inclusive and the counter wraps after
it. -/
theorem pool_wrap_after_200 (devices : List auth_device) (m1 m2 m3 : List Nat)
    (hT : TableOk devices) (h1 : Absent devices m1) (h2 : Absent devices m2)
    (h3 : Absent devices m3) :
    get_ip_for_mac devices 199 m1 = (cstr "192.168.4.199", 200) ∧
    get_ip_for_mac devices 200 m2 = (cstr "192.168.4.200", 100) ∧
    get_ip_for_mac devices 100 m3 = (cstr "192.168.4.100", 101) ∧
    (calls devices 199 [m1, m2, m3]).1 =
      [cstr "192.168.4.199", cstr "192.168.4.200", cstr "192.168.4.100"] := by
  have e1 := get_ip_for_mac_absent devices 199 m1 hT h1 (by omega) (by omega)
  have e2 := get_ip_for_mac_absent devices 200 m2 hT h2 (by omega) (by omega)
  have e3 := get_ip_for_mac_absent devices 100 m3 hT h3 (by omega) (by omega)
  have p1 : pool_addr 199 = cstr "192.168.4.199" := by decide
  have p2 : pool_addr 200 = cstr "192.168.4.200" := by decide
  have p3 : pool_addr 100 = cstr "192.168.4.100" := by decide
  rw [p1] at e1
  rw [p2] at e2
  rw [p3] at e3
  have e1' : get_ip_for_mac devices 199 m1 = (cstr "192.168.4.199", 200) := e1
  have e2' : get_ip_for_mac devices 200 m2 = (cstr "192.168.4.200", 100) := e2
  have e3' : get_ip_for_mac devices 100 m3 = (cstr "192.168.4.100", 101) := e3
  refine ⟨e1', e2', e3', ?_⟩
  simp only [calls, e1', e2', e3']

/-- C9, amended, at an unlisted MAC. -/
theorem pool_wrap_after_200_witness :
    TableOk camera_table ∧ Absent camera_table unlisted_mac ∧
    get_ip_for_mac camera_table 200 unlisted_mac = (cstr "192.168.4.200", 100) :=
  ⟨by decide, by decide,
    (pool_wrap_after_200 camera_table unlisted_mac unlisted_mac unlisted_mac
      (by decide) (by decide) (by decide) (by decide)).2.1⟩

/-- C10 as stated fails: the answer to a Discover whose `chaddr` field holds
1, 2, .., 10 after the hardware address carries these bytes, not zeros. -/
theorem reply_chaddr_counterexample :
    Accepted discover_padded ∧
    (handle camera_table 100 discover_padded).1.map (fun r => r.chaddr) =
      some [0xaa, 0xbb, 0xcc, 0xdd, 0xee, 0xff, 1, 2, 3, 4, 5, 6, 7, 8, 9, 10] ∧
    (handle camera_table 100 discover_padded).1.map (fun r => r.chaddr.getD 6 0) =
      some 1 := by
  have hacc : Accepted discover_padded := by decide
  refine ⟨hacc, ?_, ?_⟩ <;> rw [handle_accepted _ _ _ hacc] <;> rfl

/-- C10, amended: the `chaddr` field of the answer to an accepted request is a
copy of all 16 bytes of the request's `chaddr` field: bytes 0..5 are the
hardware address and bytes 6..15 are whatever the request carried there. -/
theorem reply_chaddr_copied (devices : List auth_device) (counter : Nat)
    (request : dhcp_packet) (h : Accepted request) :
    ∃ resp, (handle devices counter request).1 = some resp ∧
      (∀ i, i < 16 → resp.chaddr.getD i 0 = request.chaddr.getD i 0) ∧
      (request.chaddr.length = 16 → resp.chaddr = request.chaddr) := by
  rw [handle_accepted devices counter request h]
  refine ⟨_, rfl, ?_, ?_⟩
  · intro i hi
    show (memcpy zero_packet.chaddr request.chaddr 16).getD i 0 = _
    have hz : zero_packet.chaddr.drop 16 = [] := rfl
    rw [memcpy, hz, List.append_nil, List.getD_eq_getElem?_getD, List.getD_eq_getElem?_getD,
      List.getElem?_take_of_lt hi]
  · intro hlen
    show memcpy zero_packet.chaddr request.chaddr 16 = _
    have hz : zero_packet.chaddr.drop 16 = [] := rfl
    rw [memcpy, hz, List.append_nil, ← hlen, List.take_length]

/-- C10, amended, at a Discover with non-zero bytes after the hardware
address. -/
theorem reply_chaddr_copied_witness :
    Accepted discover_padded ∧
    ∃ resp, (handle camera_table 100 discover_padded).1 = some resp ∧
      resp.chaddr = discover_padded.chaddr := by
  have hacc : Accepted discover_padded := by decide
  obtain ⟨resp, hresp, -, hall⟩ := reply_chaddr_copied camera_table 100 discover_padded hacc
  exact ⟨hacc, resp, hresp, hall rfl⟩

/-! ### Short datagrams and malformed options -/

/-- A datagram of `d.length` bytes leaves the bytes of the buffer from offset
`d.length` on as they were. -/
theorem field_recvfrom (buf d : List Nat) (off len : Nat) (hbuf : buf.length = 552)
    (hoff : d.length ≤ off) (hlen : off + len ≤ 552) :
    field (recvfrom buf d) off len = field buf off len := by
  apply List.ext_getElem?
  intro n
  unfold field recvfrom
  rw [List.getElem?_take, List.getElem?_take, List.getElem?_drop, List.getElem?_drop,
    List.getElem?_map]
  by_cases hn : n < len
  · rw [if_pos hn, if_pos hn, List.getElem?_range (by omega)]
    have hlt : off + n < buf.length := by omega
    have hnd : ¬ off + n < d.length := by omega
    simp only [Option.map_some', if_neg hnd]
    rw [List.getD_eq_getElem?_getD, List.getElem?_eq_getElem hlt]
    rfl
  · rw [if_neg hn, if_neg hn]

/-- C7 as stated fails: when `request` still holds a Discover, an empty
datagram is answered, with an offer of 192.168.4.50. -/
theorem short_datagram_counterexample :
    stale_discover.length = 552 ∧ ([] : List Nat).length < 236 ∧
    (serve camera_table 100 stale_discover (some [])).1 ≠ none ∧
    (serve camera_table 100 stale_discover (some [])).1.map (fun r => be32 r.yiaddr) =
      some [192, 168, 4, 50] := by
  have hacc : Accepted (decode (recvfrom stale_discover [])) := by decide
  refine ⟨rfl, by decide, ?_, ?_⟩
  · exact (handle_isSome_iff _ _ _).2 hacc
  · show (handle camera_table 100 (decode (recvfrom stale_discover []))).1.map _ = _
    rw [handle_accepted _ _ _ hacc]
    decide

/-- C7, amended: the server has no length test; for a datagram shorter than
the 236-byte fixed header the cookie and the options it examines are the
bytes the buffer held before, and no reply is sent unless those bytes are
accepted: in particular none is sent when the four bytes the buffer held at
offset 236 are not the cookie. -/
theorem short_datagram_uses_stale_bytes (devices : List auth_device) (counter : Nat)
    (buf d : List Nat) (hbuf : buf.length = 552) (hd : d.length < 236) :
    (decode (recvfrom buf d)).magic = (decode buf).magic ∧
    (decode (recvfrom buf d)).options = (decode buf).options ∧
    (¬ Accepted (decode buf) → (serve devices counter buf (some d)).1 = none) ∧
    ((decode buf).magic ≠ 0x63825363 → (serve devices counter buf (some d)).1 = none) := by
  have hmagic : (decode (recvfrom buf d)).magic = (decode buf).magic := by
    show be (field (recvfrom buf d) 236 4) = be (field buf 236 4)
    rw [field_recvfrom buf d 236 4 hbuf (by omega) (by omega)]
  have hopt : (decode (recvfrom buf d)).options = (decode buf).options := by
    show field (recvfrom buf d) 240 312 = field buf 240 312
    rw [field_recvfrom buf d 240 312 hbuf (by omega) (by omega)]
  have hiff : (serve devices counter buf (some d)).1 ≠ none ↔ Accepted (decode buf) := by
    show (handle devices counter (decode (recvfrom buf d))).1 ≠ none ↔ _
    rw [handle_isSome_iff, Accepted, Accepted, hmagic, hopt]
  refine ⟨hmagic, hopt, ?_, ?_⟩
  · intro hne
    by_contra hcon
    exact hne (hiff.1 hcon)
  · intro hne
    by_contra hcon
    exact hne (hiff.1 hcon).1

/-- C7, amended, at a four-byte datagram received into a zeroed buffer. -/
theorem short_datagram_uses_stale_bytes_witness :
    (List.replicate 552 0).length = 552 ∧ [1, 1, 6, 0].length < 236 ∧
    (serve camera_table 100 (List.replicate 552 0) (some [1, 1, 6, 0])).1 = none :=
  ⟨by decide, by decide,
    (short_datagram_uses_stale_bytes camera_table 100 (List.replicate 552 0) [1, 1, 6, 0]
      (by decide) (by decide)).2.2.2 (by decide)⟩

/-- C8 as stated fails: a request with the right cookie whose option at
offset 255 declares 200 bytes where 55 remain is answered, because the
message type option stands before it. -/
theorem malformed_option_counterexample :
    discover_overrun.magic = 0x63825363 ∧
    MalformedAt discover_overrun.options 255 ∧
    (handle camera_table 100 discover_overrun).1 ≠ none := by
  have b3 : Boundary discover_overrun.options 3 :=
    Boundary.next Boundary.start (by decide) (by decide)
  have b255 : Boundary discover_overrun.options 255 :=
    Boundary.next b3 (by decide) (by decide)
  refine ⟨rfl, ⟨b255, by decide, by decide, by decide, by decide⟩, ?_⟩
  exact (handle_isSome_iff _ _ _).2 (by decide)

/-- C8, amended: when the walk of the options reaches, before any option 53,
an option that is not a pad and whose declared length runs past the end of
the 312-byte field, no reply is sent, wherever in the stream that option
stands. -/
theorem malformed_option_before_type (devices : List auth_device) (counter : Nat)
    (request : dhcp_packet) (j : Nat) (hj : Boundary request.options j)
    (hfirst : ∀ i, i ≤ j → Boundary request.options i → request.options.getD i 0 ≠ 53)
    (h0 : request.options.getD j 0 ≠ 0)
    (hover : 312 < j + 2 + request.options.getD (j + 1) 0) :
    (handle devices counter request).1 = none := by
  by_contra hcon
  have hacc := (handle_isSome_iff devices counter request).1 hcon
  have hft : ∃ v, FirstType request.options v := by
    rcases hacc.2 with h | h
    · exact ⟨1, (scan_eq_iff _ 1 (by omega)).1 h⟩
    · exact ⟨3, (scan_eq_iff _ 3 (by omega)).1 h⟩
  obtain ⟨v, k, hk, hk308, hk53, _, _⟩ := hft
  rcases Nat.lt_or_ge j k with hlt | hge
  · obtain ⟨_, _, hnext⟩ := boundary_next_le request.options k j hj hk hlt
    rw [nextOption_skip _ _ h0] at hnext
    omega
  · exact hfirst k hge hk hk53

/-- C8, amended, at a request whose malformed option at offset 102 comes
before the bytes of a message type option. -/
theorem malformed_option_before_type_witness :
    Boundary discover_overrun_first.options 102 ∧
    discover_overrun_first.options.getD 102 0 ≠ 0 ∧
    312 < 102 + 2 + discover_overrun_first.options.getD (102 + 1) 0 ∧
    (handle camera_table 100 discover_overrun_first).1 = none := by
  have b102 : Boundary discover_overrun_first.options 102 :=
    Boundary.next Boundary.start (by decide) (by decide)
  have hno : ∀ i, i < 103 → discover_overrun_first.options.getD i 0 ≠ 53 := by decide
  exact ⟨b102, by decide, by decide,
    (malformed_option_before_type camera_table 100 discover_overrun_first 102 b102
      (fun i hi _ => hno i (by omega)) (by decide) (by decide))⟩

/-! ### The pool and the reserved addresses -/

/-- C11: the pool is not filtered against the table.  There are a table, a
record of it and a MAC absent from the table such that `get_ip_for_mac` returns
for that MAC the `ip` the record reserves for another MAC.  In general, for
every table, a reserved `ip` of the form 192.168.4.n with 100 <= n <= 200 is
returned to every absent MAC asked while the counter is `n`, and from any
counter in 100..200 one of the next 101 calls for absent MACs returns it. -/
theorem pool_not_filtered :
    (∃ devices d mac, TableOk devices ∧ d ∈ devices ∧ Absent devices mac ∧
      ¬ eqIgnoreCase mac d.mac ∧ (get_ip_for_mac devices 100 mac).1 = d.ip) ∧
    (∀ devices d n mac, TableOk devices → d ∈ devices → d.ip = pool_addr n →
      100 ≤ n → n ≤ 200 → Absent devices mac →
      ¬ eqIgnoreCase mac d.mac ∧ (get_ip_for_mac devices n mac).1 = d.ip) ∧
    (∀ devices d n c macs, TableOk devices → d ∈ devices → d.ip = pool_addr n →
      100 ≤ n → n ≤ 200 → 100 ≤ c → c ≤ 200 → (∀ m ∈ macs, Absent devices m) →
      101 ≤ macs.length →
      ∃ k, k < 101 ∧ (calls devices c macs).1.getD k [] = d.ip) := by
  have hgen : ∀ devices d n mac, TableOk devices → d ∈ devices → d.ip = pool_addr n →
      100 ≤ n → n ≤ 200 → Absent devices mac →
      ¬ eqIgnoreCase mac d.mac ∧ (get_ip_for_mac devices n mac).1 = d.ip := by
    intro devices d n mac hT hd hip hlo hhi habs
    refine ⟨habs.2 d hd, ?_⟩
    rw [get_ip_for_mac_absent devices n mac hT habs hlo hhi, hip]
  refine ⟨⟨pool_reserving_table, ⟨cstr "aa:bb:cc:dd:ee:ff", cstr "192.168.4.100", cstr "camera"⟩,
    unlisted_mac, by decide, by decide, by decide, by decide, by decide⟩, hgen, ?_⟩
  intro devices d n c macs hT _ hip hlo hhi hclo hchi hm hlen
  obtain ⟨h1, _⟩ := calls_absent devices hT macs c hm hclo hchi
  refine ⟨(n + 101 - c) % 101, Nat.mod_lt _ (by norm_num), ?_⟩
  have hk : (n + 101 - c) % 101 < macs.length :=
    Nat.lt_of_lt_of_le (Nat.mod_lt _ (by norm_num)) hlen
  rw [h1, List.getD_eq_getElem?_getD, List.getElem?_map, List.getElem?_range hk, hip]
  show pool_addr _ = pool_addr n
  congr 1
  omega

/-- C11 at a table that reserves 192.168.4.100, the first address of the pool:
the first unlisted device that asks is given it. -/
theorem pool_not_filtered_witness :
    TableOk pool_reserving_table ∧ Absent pool_reserving_table unlisted_mac ∧
    ¬ eqIgnoreCase unlisted_mac (cstr "aa:bb:cc:dd:ee:ff") ∧
    (get_ip_for_mac pool_reserving_table 100 unlisted_mac).1 = cstr "192.168.4.100" :=
  ⟨by decide, by decide,
    pool_not_filtered.2.1 pool_reserving_table
      ⟨cstr "aa:bb:cc:dd:ee:ff", cstr "192.168.4.100", cstr "camera"⟩ 100 unlisted_mac
      (by decide) (by decide) (by decide) (by decide) (by decide) (by decide)⟩

/-! ### Datagrams and the receive buffer -/

theorem getD_field (b : List Nat) (off len j : Nat) (hj : j < len) :
    (field b off len).getD j 0 = b.getD (off + j) 0 := by
  unfold field
  rw [List.getD_eq_getElem?_getD, List.getD_eq_getElem?_getD,
    List.getElem?_take_of_lt hj, List.getElem?_drop]

theorem getD_recvfrom (buf d : List Nat) (k : Nat) (hk : k < 552) :
    (recvfrom buf d).getD k 0 = if k < d.length then d.getD k 0 else buf.getD k 0 := by
  unfold recvfrom
  rw [List.getD_eq_getElem?_getD, List.getElem?_map, List.getElem?_range hk]
  rfl

/-- A field that lies inside the datagram holds the bytes of the datagram. -/
theorem field_recvfrom_inside (buf d : List Nat) (off len : Nat)
    (hd : off + len ≤ d.length) (hlen : off + len ≤ 552) :
    field (recvfrom buf d) off len = field d off len := by
  apply List.ext_getElem?
  intro n
  unfold field recvfrom
  rw [List.getElem?_take, List.getElem?_take, List.getElem?_drop, List.getElem?_drop,
    List.getElem?_map]
  by_cases hn : n < len
  · rw [if_pos hn, if_pos hn, List.getElem?_range (by omega)]
    have hlt : off + n < d.length := by omega
    simp only [Option.map_some', if_pos hlt]
    rw [List.getD_eq_getElem?_getD, List.getElem?_eq_getElem hlt]
    rfl
  · rw [if_neg hn, if_neg hn]

/-- The loop depends on the options only through the bytes it reads. -/
theorem scanLoop_congr (o o2 : List Nat) :
    ∀ fuel i, (∀ j, j ∈ (scanLoop o fuel i).2 → o2.getD j 0 = o.getD j 0) →
      scanLoop o2 fuel i = scanLoop o fuel i := by
  intro fuel
  induction fuel with
  | zero => intro i _; rfl
  | succ n ih =>
    intro i h
    by_cases h308 : i < 308
    · by_cases h255 : o.getD i 0 = 255
      · rw [scanLoop_end o n i h308 h255] at h ⊢
        have hi := h i (List.mem_singleton.2 rfl)
        exact scanLoop_end o2 n i h308 (hi.trans h255)
      · by_cases h53 : o.getD i 0 = 53
        · rw [scanLoop_found o n i h308 h53] at h ⊢
          have hi := h i (List.mem_cons_self _ _)
          have hi2 := h (i + 2) (by simp)
          rw [scanLoop_found o2 n i h308 (hi.trans h53), hi2]
        · by_cases h0 : o.getD i 0 = 0
          · rw [scanLoop_pad o n i h308 h0] at h ⊢
            have hi := h i (List.mem_cons_self _ _)
            have hrest := ih (i + 1) fun j hj =>
              h j (List.mem_cons_of_mem _ (List.mem_cons_of_mem _ (List.mem_cons_of_mem _ hj)))
            rw [scanLoop_pad o2 n i h308 (hi.trans h0), hrest]
          · rw [scanLoop_skip o n i h308 h255 h53 h0] at h ⊢
            have hi := h i (List.mem_cons_self _ _)
            have hi1 := h (i + 1) (by simp)
            have hrest := ih (i + 2 + o.getD (i + 1) 0) fun j hj =>
              h j (List.mem_cons_of_mem _ (List.mem_cons_of_mem _ (List.mem_cons_of_mem _
                (List.mem_cons_of_mem _ hj))))
            rw [scanLoop_skip o2 n i h308 (by rw [hi]; exact h255) (by rw [hi]; exact h53)
              (by rw [hi]; exact h0), hi1, hrest]
    · rw [scanLoop_stop o n i h308, scanLoop_stop o2 n i h308]

/-- When every options byte that the scan of the datagram reads lies inside the
datagram, the scan of the receive buffer finds what the scan of the datagram
finds. -/
theorem scan_recvfrom (buf d : List Nat)
    (hin : ∀ j, j ∈ scanReads (field d 240 312) → 240 + j < d.length) :
    scan (decode (recvfrom buf d)).options = scan (field d 240 312) := by
  show (scanLoop (field (recvfrom buf d) 240 312) 308 0).1 = (scanLoop (field d 240 312) 308 0).1
  rw [scanLoop_congr (field d 240 312) (field (recvfrom buf d) 240 312) 308 0]
  intro j hj
  have hj309 : j ≤ 309 := scanLoop_reads_le (field d 240 312) 308 0 j hj
  have hjd : 240 + j < d.length := hin j hj
  rw [getD_field _ 240 312 j (by omega), getD_field _ 240 312 j (by omega),
    getD_recvfrom buf d (240 + j) (by omega), if_pos hjd]

/-- C4 as stated fails: a datagram of 240 bytes with the right cookie and an
empty option stream, hence without option 53, is answered when `request` still
holds a Discover (and is not answered when the buffer held zeros). -/
theorem datagram_without_type_counterexample :
    datagram_cookie_only.length = 240 ∧
    be (field datagram_cookie_only 236 4) = 0x63825363 ∧
    field datagram_cookie_only 240 312 = [] ∧
    (serve camera_table 100 stale_discover (some datagram_cookie_only)).1 ≠ none ∧
    (serve camera_table 100 (List.replicate 552 0) (some datagram_cookie_only)).1 = none := by
  have hacc : Accepted (decode (recvfrom stale_discover datagram_cookie_only)) := by decide
  have hrej : ¬ Accepted (decode (recvfrom (List.replicate 552 0) datagram_cookie_only)) := by
    decide
  refine ⟨rfl, by decide, rfl, (handle_isSome_iff _ _ _).2 hacc, ?_⟩
  by_contra hcon
  exact hrej ((handle_isSome_iff _ _ _).1 hcon)

/-- C4, amended: a failed `recvfrom` is not answered, and a received datagram is
answered only if, in the receive buffer after the receive (the bytes of the
datagram, cut at 552, and behind them the bytes the buffer held before), the
cookie field is 0x63825363 and the walk of the options reaches an option 53
whose value byte is 1 or 3; more exactly, if and only if the first option 53
reached has the value 1 or 3.  So a datagram of at least 240 bytes with a wrong
cookie is not answered; and a datagram that contains every options byte the
scan of its own options reads is judged on its own bytes: it is not answered
when its option stream holds no option 53 and when its first option 53 has a
value other than 1 and 3. -/
theorem reply_requires_cookie_and_type (devices : List auth_device) (counter : Nat)
    (buf d : List Nat) :
    (serve devices counter buf none).1 = none ∧
    ((serve devices counter buf (some d)).1 ≠ none →
      (decode (recvfrom buf d)).magic = 0x63825363 ∧
        (ReachesType (decode (recvfrom buf d)).options 1 ∨
          ReachesType (decode (recvfrom buf d)).options 3)) ∧
    ((serve devices counter buf (some d)).1 ≠ none ↔
      (decode (recvfrom buf d)).magic = 0x63825363 ∧
        (FirstType (decode (recvfrom buf d)).options 1 ∨
          FirstType (decode (recvfrom buf d)).options 3)) ∧
    (240 ≤ d.length → (decode (recvfrom buf d)).magic = be (field d 236 4)) ∧
    (240 ≤ d.length → be (field d 236 4) ≠ 0x63825363 →
      (serve devices counter buf (some d)).1 = none) ∧
    (240 ≤ d.length →
      (∀ j, j ∈ scanReads (field d 240 312) → 240 + j < d.length) →
      ((serve devices counter buf (some d)).1 ≠ none ↔
        be (field d 236 4) = 0x63825363 ∧
          (FirstType (field d 240 312) 1 ∨ FirstType (field d 240 312) 3)) ∧
      ((∀ i, Boundary (field d 240 312) i → i < 308 → (field d 240 312).getD i 0 ≠ 53) →
        (serve devices counter buf (some d)).1 = none) ∧
      (∀ v, FirstType (field d 240 312) v → v ≠ 1 → v ≠ 3 →
        (serve devices counter buf (some d)).1 = none)) := by
  have hiff : (serve devices counter buf (some d)).1 ≠ none ↔
      (decode (recvfrom buf d)).magic = 0x63825363 ∧
        (FirstType (decode (recvfrom buf d)).options 1 ∨
          FirstType (decode (recvfrom buf d)).options 3) :=
    handle_reply_iff devices counter (decode (recvfrom buf d))
  have hmagic : 240 ≤ d.length → (decode (recvfrom buf d)).magic = be (field d 236 4) := by
    intro hlen
    show be (field (recvfrom buf d) 236 4) = _
    rw [field_recvfrom_inside buf d 236 4 (by omega) (by omega)]
  have hnone : ∀ {x : Option dhcp_packet}, ¬ x ≠ none → x = none := fun h => not_not.1 h
  refine ⟨rfl, ?_, hiff, hmagic, ?_, ?_⟩
  · intro h
    obtain ⟨hm, ht⟩ := hiff.1 h
    exact ⟨hm, ht.imp (boundary_reaches_of_first _ _) (boundary_reaches_of_first _ _)⟩
  · intro hlen hne
    apply hnone
    intro h
    exact hne ((hmagic hlen).symm.trans (hiff.1 h).1)
  · intro hlen hin
    have hown : (serve devices counter buf (some d)).1 ≠ none ↔
        be (field d 236 4) = 0x63825363 ∧
          (FirstType (field d 240 312) 1 ∨ FirstType (field d 240 312) 3) := by
      show (handle devices counter (decode (recvfrom buf d))).1 ≠ none ↔ _
      rw [handle_isSome_iff, Accepted, hmagic hlen, scan_recvfrom buf d hin,
        scan_eq_iff _ 1 (by omega), scan_eq_iff _ 3 (by omega)]
      rfl
    refine ⟨hown, ?_, ?_⟩
    · intro hno
      apply hnone
      intro h
      rcases (hown.1 h).2 with ⟨i, hi, h308, h53, _⟩ | ⟨i, hi, h308, h53, _⟩ <;>
        exact hno i hi h308 h53
    · intro v hv h1 h3
      apply hnone
      intro h
      rcases (hown.1 h).2 with h' | h'
      · exact h1 (firstType_unique _ _ _ hv h')
      · exact h3 (firstType_unique _ _ _ hv h')

/-- C4, amended, at two datagrams of 244 bytes received while `request` still
holds a Discover: one whose cookie is off by one, and one with the right cookie
whose message type is 2. -/
theorem reply_requires_cookie_and_type_witness :
    (240 ≤ datagram_bad_cookie.length ∧
      be (field datagram_bad_cookie 236 4) ≠ 0x63825363 ∧
      (serve camera_table 100 stale_discover (some datagram_bad_cookie)).1 = none) ∧
    (240 ≤ datagram_offer.length ∧
      (∀ j, j ∈ scanReads (field datagram_offer 240 312) → 240 + j < datagram_offer.length) ∧
      FirstType (field datagram_offer 240 312) 2 ∧
      (serve camera_table 100 stale_discover (some datagram_offer)).1 = none) := by
  have hin : ∀ j, j ∈ scanReads (field datagram_offer 240 312) →
      240 + j < datagram_offer.length := by decide
  have hft : FirstType (field datagram_offer 240 312) 2 :=
    ⟨0, Boundary.start, by decide, by decide, fun j hj _ => absurd hj (Nat.not_lt_zero j),
      by decide⟩
  exact ⟨⟨by decide, by decide,
      (reply_requires_cookie_and_type camera_table 100 stale_discover
        datagram_bad_cookie).2.2.2.2.1 (by decide) (by decide)⟩,
    by decide, hin, hft,
      ((reply_requires_cookie_and_type camera_table 100 stale_discover
        datagram_offer).2.2.2.2.2 (by decide) hin).2.2 2 hft (by decide) (by decide)⟩

end DhcpServer
